import Mathlib

/-!
Verification of the reconciliation-and-classification pipeline of the
Dashboards repository (src/Final/pages/1_Financial_Dashboard.py and
src/Final/pages/2_Subscription_Dashboard.py).

Text is modelled as lists of Unicode code points (`Str := List Nat`); the
pandas/Python string operations used by the pipeline (strip, lower, upper,
title, regex character filters, the counterparty-extraction regex) are
embedded as executable functions over that representation.  Monetary
amounts are modelled as rationals; `pd.to_numeric(..., errors="coerce")`
on the pipeline's cleaned numeric alphabet (digits, one optional leading
minus sign, at most one dot) is modelled by `parseDec`.
-/


/-- Strings as lists of Unicode code points. -/
abbrev Str := List Nat

/-- Turn a Lean string literal into the code-point representation. -/
def litS (s : String) : Str := s.data.map Char.toNat

/-- ASCII decimal digit (regex `\d` on the pipeline's data). -/
def isDigitP (n : Nat) : Bool := 48 ≤ n && n ≤ 57

/-- Whitespace for Python `str.strip` and regex `\s` on the data alphabet that
reaches the pipeline: tab, LF, VT, FF, CR, space and the no-break space
U+00A0 (which Python treats as whitespace in both contexts). -/
def isWsP (n : Nat) : Bool :=
  n == 9 || n == 10 || n == 11 || n == 12 || n == 13 || n == 32 || n == 160

/-- Regex word character `\w` on the ASCII alphabet: letters, digits, `_`. -/
def isWordP (n : Nat) : Bool :=
  (48 ≤ n && n ≤ 57) || (65 ≤ n && n ≤ 90) || (97 ≤ n && n ≤ 122) || n == 95

/-- A stop character of the counterparty-extraction regex: `,` `;` `(` `)`. -/
def isStopP (n : Nat) : Bool := n == 44 || n == 59 || n == 40 || n == 41

/-- ASCII lowercase letter. -/
def isLowerP (n : Nat) : Bool := 97 ≤ n && n ≤ 122

/-- ASCII uppercase letter. -/
def isUpperP (n : Nat) : Bool := 65 ≤ n && n ≤ 90

/-- ASCII letter. -/
def isAlphaP (n : Nat) : Bool := isLowerP n || isUpperP n

/-- Lowercase one code point (ASCII range, as used by the pipeline data). -/
def lowerC (n : Nat) : Nat := if isUpperP n then n + 32 else n

/-- Uppercase one code point (ASCII range, as used by the pipeline data). -/
def upperC (n : Nat) : Nat := if isLowerP n then n - 32 else n

/-- Python `str.lower` on the modelled alphabet. -/
def lowerS (l : Str) : Str := l.map lowerC

/-- Python `str.upper` on the modelled alphabet. -/
def upperS (l : Str) : Str := l.map upperC

/-- Python `str.strip()`: drop whitespace from both ends. -/
def pyStrip (l : Str) : Str :=
  ((l.dropWhile isWsP).reverse.dropWhile isWsP).reverse

/-- One step of Python `str.title`: `b` records whether the previous
character was cased (an ASCII letter here). -/
def titleC (b : Bool) (n : Nat) : Nat :=
  if isAlphaP n then (if b then lowerC n else upperC n) else n

/-- Helper for `pyTitle`, carrying the previous-character-cased flag. -/
def pyTitleAux (b : Bool) : Str → Str
  | [] => []
  | c :: rest => titleC b c :: pyTitleAux (isAlphaP c) rest

/-- Python `str.title` on the modelled alphabet. -/
def pyTitle (l : Str) : Str := pyTitleAux false l

/-- Rendering `astype(str)` of a nullable cell: `NaN` renders as "nan". -/
def pdStr (c : Option Str) : Str := c.getD (litS "nan")

/-- Value of a digit string (most significant first). -/
def digitsToNat (l : Str) : Nat := l.foldl (fun a d => a * 10 + (d - 48)) 0

/-- Parse an unsigned decimal numeral: digits with at most one dot, at least
one digit overall (mirrors what `pd.to_numeric` accepts on the pipeline's
cleaned strings; anything else coerces to NaN, i.e. `none`). -/
def parseUnsigned (l : Str) : Option ℚ :=
  let a := l.takeWhile (fun c => !(c == 46))
  let b := l.dropWhile (fun c => !(c == 46))
  match b with
  | [] =>
    if a ≠ [] ∧ a.all isDigitP then some (digitsToNat a) else none
  | _ :: frac =>
    if 46 ∈ frac then none
    else if (a ≠ [] ∨ frac ≠ []) ∧ a.all isDigitP ∧ frac.all isDigitP then
      some (mkRat (digitsToNat a * 10 ^ frac.length + digitsToNat frac) (10 ^ frac.length))
    else none

/-- Parse a signed decimal numeral (one optional leading `-`). -/
def parseDec (l : Str) : Option ℚ :=
  match l with
  | 45 :: rest => (parseUnsigned rest).map (fun q => -q)
  | _ => parseUnsigned l

/-- Character kept by the financial dashboard's numeric cleaning
`str.replace(r"[^\d.\-]", "")`: digits, `.` and `-`. -/
def isNumKeepP (n : Nat) : Bool := isDigitP n || n == 46 || n == 45

/-- Financial numeric cleaning plus coercion, `NaN ⇒ 0.0`
(1_Financial_Dashboard.py lines 122-128 and 179-185). -/
def cleanAmountFin (raw : Str) : ℚ :=
  (parseDec (raw.filter isNumKeepP)).getD 0

/-- Lazy group `(.+?)` of the extraction regex with lookahead `(?=[,;()]+|$)`:
the shortest nonempty newline-free prefix whose following position starts
with a stop character or is the end of the text. -/
def grpCode : Str → Option Str
  | [] => none
  | c :: rest =>
    if c = 10 then none
    else
      match rest with
      | [] => some [c]
      | d :: _ =>
        if isStopP d then some [c]
        else (grpCode rest).map (fun g => c :: g)

/-- Greedy `\s+` with backtracking, followed by the lazy group: consume as
much whitespace as possible, retrying with less when the group fails.
The argument is the text immediately after the matched `to`; it must start
with a whitespace character, else the match attempt fails. -/
def wsGrpAux : Str → Option Str
  | [] => none
  | c :: rest =>
    if isWsP c then
      match wsGrpAux rest with
      | some g => some g
      | none => grpCode rest
    else none

/-- Attempt of the tail of `\bto\s+(.+?)(?=[,;()]+|$)` right after a `t` that
sits on a word boundary: require `o`, then whitespace-and-group. -/
def matchAtCode (rest : Str) : Option Str :=
  match rest with
  | 111 :: r2 => wsGrpAux r2
  | _ => none

/-- Scan of the regex engine for the first full match; `pw` records whether
the previous character was a word character (for the `\b` before `to`). -/
def scanCode : Bool → Str → Option Str
  | _, [] => none
  | pw, c :: rest =>
    match (if c = 116 ∧ pw = false then matchAtCode rest else none) with
    | some g => some g
    | none => scanCode (isWordP c) rest

/-- Employee extraction of the balance normalizer
(1_Financial_Dashboard.py lines 132-136):
`str.extract(r"\bto\s+(.+?)(?=[,;()]+|$)").str.strip()`; no match is NaN. -/
def extractTo (desc : Str) : Option Str :=
  (scanCode false desc).map pyStrip

/-- The counterparty rule exactly as the specification words it (used to
state claim C4): the trimmed substring following the first case-insensitive
whole-word occurrence of "to", extending until the next `,` `;` `(` `)` or
the end of the string; absent when there is no such occurrence. -/
def ciWordTo (c : Nat) (rest : Str) : Bool :=
  match rest with
  | [] => false
  | d :: r2 =>
    lowerC c == 116 && lowerC d == 111
      && (match r2 with | [] => true | e :: _ => !isWordP e)

/-- Scan for claim C4's case-insensitive whole-word "to". -/
def scanSpecCI : Bool → Str → Option Str
  | _, [] => none
  | pw, c :: rest =>
    if ciWordTo c rest = true ∧ pw = false then
      some (pyStrip ((rest.drop 1).takeWhile (fun n => !isStopP n)))
    else scanSpecCI (isWordP c) rest

/-- Claim C4's extraction, written from the specification's words. -/
def extractToClaimCI (l : Str) : Option Str := scanSpecCI false l

/-- Amended characterization of the tail of a match: skip the maximal
whitespace run after "to"; if any text follows, the counterparty is that
first character followed by everything up to the next `,` `;` `(` `)` or
end of string, trimmed; if the string ends inside the whitespace run, the
run's last character is captured (trimming to the empty string) when the
run has length at least two, and the match fails when it has length one. -/
def specTail (r2 : Str) : Option Str :=
  match r2.dropWhile isWsP with
  | x :: xs => some (pyStrip (x :: xs.takeWhile (fun n => !isStopP n)))
  | [] => if 2 ≤ r2.length then some [] else none

/-- Scan of the amended (case-sensitive) characterization: the first
lowercase "to" preceded by a word boundary and followed by whitespace
determines the result via `specTail`. -/
def toWsTrigger (rest : Str) : Bool :=
  match rest with
  | 111 :: x :: _ => isWsP x
  | _ => false

/-- Scan for the amended rule's lowercase "to" at a word boundary that is
followed by whitespace. -/
def scanSpecCS : Bool → Str → Option Str
  | _, [] => none
  | pw, c :: rest =>
    if c = 116 ∧ pw = false ∧ toWsTrigger rest = true then
      specTail (rest.drop 1)
    else scanSpecCS (isWordP c) rest

/-- Amended claim C4's extraction: case-sensitive "to" at a word boundary,
followed by whitespace, then the `specTail` capture rule. -/
def extractToAmended (l : Str) : Option Str := scanSpecCS false l

/-- A parsed timestamp: year, month (0-based index into the month table)
and day.  The pipeline parses timestamps once and only ever re-derives
month/year fields from them. -/
structure DT where
  year : Nat
  month : Fin 12
  day : Nat
deriving DecidableEq

/-- A balance-activity export row after column resolution: the cells the
normalizer reads, each nullable (`none` is a NaN cell). -/
structure BalRow where
  finType : Option Str
  time : Option DT
  desc : Option Str
  txnId : Option Str
  amount : Option Str
deriving DecidableEq

/-- A card-expense export row: the cells the normalizer reads. -/
structure ExpRow where
  time : Option DT
  employees : Option Str
  txnId : Option Str
  billing : Option Str
  category : Option Str
  status : Option Str
deriving DecidableEq

/-- One row of the unified transaction table.  `expCategory` stores the
"Expense category" column as `astype(str)` renders it ("<NA>" for the
balance rows whose `np.select` defaulted to `pd.NA`); `user`, `category`
and `monthYear` are created by the unifier, so the per-source normalizers
fill placeholders there. -/
@[ext]
structure Row where
  txnId : Option Str
  typ : Str
  employee : Option Str
  amount : ℚ
  expCategory : Str
  expStatus : Option Str
  time : Option DT
  month : Option Str
  year : Str
  monthYear : Option (Nat × Fin 12)
  date : Option DT
  user : Str
  category : Option Str
  debit : ℚ
  credit : ℚ
  finalAmount : ℚ
deriving DecidableEq

/-- Three-letter month abbreviations of `strftime("%b")`. -/
def monthAbbr (m : Fin 12) : Str :=
  [litS "Jan", litS "Feb", litS "Mar", litS "Apr", litS "May", litS "Jun",
   litS "Jul", litS "Aug", litS "Sep", litS "Oct", litS "Nov",
   litS "Dec"].getD m.val []

/-- Digit expansion with fuel (one fuel unit per division step suffices). -/
def natToStrAux : Nat → Nat → Str
  | 0, _ => []
  | fuel + 1, n =>
    if n < 10 then [48 + n]
    else natToStrAux fuel (n / 10) ++ [48 + n % 10]

/-- Decimal rendering of a natural number. -/
def natToStr (n : Nat) : Str := natToStrAux (n + 1) n

/-- The `Month` column: `Time.dt.strftime("%b").str.upper()`, NaN on NaT. -/
def monthField (t : Option DT) : Option Str :=
  t.map (fun d => upperS (monthAbbr d.month))

/-- The `Year` column: `Time.dt.year.astype("Int64").astype(str)`; a missing
timestamp renders as the literal text "<NA>". -/
def yearField (t : Option DT) : Str :=
  match t with
  | some d => natToStr d.year
  | none => litS "<NA>"

/-- Normalization `astype(str).str.strip().str.upper()`, the type normalization used on
both the balance export and the concatenated table. -/
def normType (s : Str) : Str := upperS (pyStrip s)

/-- The four financial transaction types the balance filter keeps
(1_Financial_Dashboard.py line 116). -/
def balTypes : List Str :=
  [litS "DEPOSIT", litS "CARD_REFUND", litS "PAYOUT", litS "ADJUSTMENT"]

/-- Debit-side types of the unifier's fallback (line 260). -/
def debitTypes : List Str := [litS "CARD", litS "PAYOUT", litS "ADJUSTMENT"]

/-- Credit-side types of the unifier's fallback (line 261). -/
def creditTypes : List Str := [litS "DEPOSIT", litS "CARD_REFUND"]

/-- The balance row's normalized financial transaction type (line 115). -/
def balanceType (r : BalRow) : Str := normType (pdStr r.finType)

/-- Balance normalizer (1_Financial_Dashboard.py lines 115-163): filter on
the four types, clean the amount, extract the counterparty after "to",
map PAYOUT/ADJUSTMENT to their categories, and assign debit/credit by
type membership. -/
def balanceRow (r : BalRow) : Row :=
  { txnId := r.txnId
    typ := balanceType r
    employee := extractTo (pdStr r.desc)
    amount := cleanAmountFin (pdStr r.amount)
    expCategory :=
      if balanceType r = litS "PAYOUT" then litS "Transfers"
      else if balanceType r = litS "ADJUSTMENT" then litS "Air wallex Expense"
      else litS "<NA>"
    expStatus := none
    time := r.time
    month := monthField r.time
    year := yearField r.time
    monthYear := none
    date := r.time
    user := []
    category := none
    debit := if balanceType r ∈ [litS "PAYOUT", litS "ADJUSTMENT"]
      then cleanAmountFin (pdStr r.amount) else 0
    credit := if balanceType r ∈ [litS "DEPOSIT", litS "CARD_REFUND"]
      then cleanAmountFin (pdStr r.amount) else 0
    finalAmount := 0 }

/-- The balance filter and normalization combined: only the four types are
kept. -/
def mkBalance (r : BalRow) : Option Row :=
  if balanceType r ∈ balTypes then some (balanceRow r) else none

/-- Card-expense normalizer (1_Financial_Dashboard.py lines 168-206):
type fixed to CARD, counterparty is the first comma-separated token of the
employees cell, debit is the cleaned billing amount, credit is zero. -/
def mkExpense (r : ExpRow) : Row :=
  { txnId := r.txnId
    typ := litS "CARD"
    employee := some (pyStrip ((pdStr r.employees).takeWhile (fun c => !(c == 44))))
    amount := cleanAmountFin (pdStr r.billing)
    expCategory := pyStrip (pdStr r.category)
    expStatus := r.status
    time := r.time
    month := monthField r.time
    year := yearField r.time
    monthYear := none
    date := r.time
    user := []
    category := none
    debit := cleanAmountFin (pdStr r.billing)
    credit := 0
    finalAmount := 0 }

/-- Replace each no-break space by an ordinary space
(`str.replace(u"\xa0", " ", regex=False)`). -/
def subNbsp (l : Str) : Str := l.map (fun c => if c = 160 then 32 else c)

/-- Collapse every maximal whitespace run to a single space
(`str.replace(r"\s+", " ", regex=True)`). -/
def collapseWs : Str → Str
  | [] => []
  | [c] => if isWsP c then [32] else [c]
  | c :: d :: rest =>
    if isWsP c then
      if isWsP d then collapseWs (d :: rest)
      else 32 :: collapseWs (d :: rest)
    else c :: collapseWs (d :: rest)

/-- The `User` column (1_Financial_Dashboard.py line 220): collapse
whitespace, replace no-break spaces, strip, then title-case. -/
def userField (employee : Option Str) : Str :=
  pyTitle (pyStrip (subNbsp (collapseWs (pdStr employee))))

/-- The CARD-only category source rule (lines 226-232): for CARD rows the
category is the stripped expense category with "", "nan" and "None"
replaced by NA; other rows keep the category computed so far. -/
def cardCategory (typU : Str) (expCategory : Str) (cat1 : Option Str) : Option Str :=
  if typU = litS "CARD" then
    let c := pyStrip expCategory
    if c = [] ∨ c = litS "nan" ∨ c = litS "None" then none else some c
  else cat1

/-- The Incomplete rule (lines 235-239): CARD rows with an absent category
whose stripped, lowercased expense status equals "incomplete" receive the
category "Incomplete"; all other rows are left unchanged. -/
def applyIncomplete (typU : Str) (cat : Option Str) (statusRaw : Option Str) : Option Str :=
  if typU = litS "CARD" ∧ cat = none
      ∧ lowerS (pyStrip (pdStr statusRaw)) = litS "incomplete" then
    some (litS "Incomplete")
  else cat

/-- The unifier's re-derivation step (1_Financial_Dashboard.py lines
210-263): normalize the type, rebuild `User` and `Category`, apply the
ADJUSTMENT override, the CARD category source rule and the Incomplete
rule, re-derive month/year/month-year from the timestamp, set the spend
amount to the debit column, and apply the both-zero debit/credit
fallback. -/
def unify (r : Row) : Row :=
  let typU := normType r.typ
  let user0 := userField r.employee
  let cat0 : Option Str := some (pyStrip r.expCategory)
  let isAdj := upperS typU = litS "ADJUSTMENT"
  let user1 := if isAdj then litS "Adjustments" else user0
  let cat1 := if isAdj then some (litS "Air wallex Expense") else cat0
  let cat2 := cardCategory typU r.expCategory cat1
  let cat3 := applyIncomplete typU cat2 r.expStatus
  let bothZero := r.debit = 0 ∧ r.credit = 0
  let debit1 := if bothZero ∧ upperS typU ∈ debitTypes then r.amount else r.debit
  let credit1 := if bothZero ∧ upperS typU ∈ creditTypes then r.amount else r.credit
  { r with
    typ := typU
    user := user1
    category := cat3
    month := monthField r.time
    year := yearField r.time
    monthYear := r.time.map (fun d => (d.year, d.month))
    finalAmount := r.debit
    debit := debit1
    credit := credit1 }

/-- The unified table: concatenate normalized expense rows (first) and
normalized balance rows (second), then run the unifier's re-derivation
over every row. -/
def unifiedTable (es : List ExpRow) (bs : List BalRow) : List Row :=
  ((es.map mkExpense) ++ (bs.filterMap mkBalance)).map unify

/-- A raw table for the missing-transaction checker: column names plus rows
of nullable cells, each row aligned with the column list. -/
structure DF where
  cols : List Str
  rows : List (List (Option Str))
deriving DecidableEq

/-- Key of `_map_cols`: `c.lower().strip()`. -/
def lowKey (s : Str) : Str := pyStrip (lowerS s)

/-- Lookup of `_map_cols`: the dict maps each lowered-stripped name to the
column, later duplicates overwriting earlier ones. -/
def lastLookup (cols : List Str) (key : Str) : Option Str :=
  cols.reverse.find? (fun c => lowKey c == key)

/-- Resolution `_pick_name`: the first candidate whose lowercased form is a key of the
column map wins (1_Financial_Dashboard.py lines 734-739). -/
def pickName (d : DF) (cands : List Str) : Option Str :=
  cands.findSome? (fun c => lastLookup d.cols (lowerS c))

/-- Transaction-id aliases used by `_pair_missing`. -/
def txnCands : List Str :=
  [litS "Transaction Id", litS "TransactionID", litS "Transaction_Id"]

/-- Resolution of the join column in one input table. -/
def resolveTxn (d : DF) : Option Str := pickName d txnCands

/-- Cell of a row under a named column (first matching column label). -/
def cellAt (d : DF) (name : Str) (row : List (Option Str)) : Option Str :=
  (row.getD (d.cols.findIdx (fun c => c == name)) none)

/-- Normalization `_norm_id`: `astype(str).str.strip().str.lower()` on a cell. -/
def normId (c : Option Str) : Str := lowerS (pyStrip (pdStr c))

/-- A normalized key is valid unless it is empty or the literal "nan". -/
def validKey (k : Str) : Bool := !(k == ([] : Str)) && !(k == litS "nan")

/-- Emptiness `df.empty`: no rows or no columns. -/
def dfEmpty (d : DF) : Bool := d.rows.isEmpty || d.cols.isEmpty

/-- The valid normalized keys appearing in a table's join column. -/
def validKeys (d : DF) (col : Str) : List Str :=
  (d.rows.map (fun row => normId (cellAt d col row))).filter validKey

/-- Rows of `A` whose key is valid and absent from `B`'s valid keys
(the `A_only_mask` selection of `_pair_missing`). -/
def aOnlyRows (A : DF) (colA : Str) (B : DF) (colB : Str) :
    List (List (Option Str)) :=
  A.rows.filter (fun row =>
    validKey (normId (cellAt A colA row))
      && !((validKeys B colB).contains (normId (cellAt A colA row))))

/-- The alias groups of `_nice_subset`. -/
def niceGroups : List (List Str) :=
  [[litS "Transaction Id", litS "TransactionID", litS "Transaction_Id"],
   [litS "Time", litS "Created At", litS "Transaction timestamp UTC"],
   [litS "Type"],
   [litS "Financial Transaction Type", litS "Financial transaction type",
    litS "Financial_Type"],
   [litS "Description", litS "Reference"],
   [litS "Amount", litS "Transaction amount", litS "Billing amount"],
   [litS "Debit Net Amount", litS "Debit Amount"],
   [litS "Credit Net Amount", litS "Credit Amount"],
   [litS "Wallet Currency", litS "Transaction Currency",
    litS "Billing currency", litS "Currency"],
   [litS "Employee(s)", litS "User", litS "Employee1"],
   [litS "Expense category", litS "Category"]]

/-- Order-preserving deduplication (`dict.fromkeys`), with an accumulator
of names already seen. -/
def dedupAux (seen : List Str) : List Str → List Str
  | [] => []
  | c :: rest =>
    if seen.contains c then dedupAux seen rest
    else c :: dedupAux (c :: seen) rest

/-- Projection `_nice_subset` (1_Financial_Dashboard.py lines 744-763): project to the
resolvable friendly columns, keeping every row; with no resolvable column
the table is returned unchanged. -/
def niceSubset (d : DF) : DF :=
  let names := dedupAux [] (niceGroups.filterMap (fun g => pickName d g))
  if names = [] then d
  else { cols := names, rows := d.rows.map (fun row => names.map (fun n => cellAt d n row)) }

/-- The empty result table. -/
def emptyDF : DF := { cols := [], rows := [] }

/-- Checker `_pair_missing` (1_Financial_Dashboard.py lines 765-788): empty inputs
or an unresolvable (or falsy) join column give two empty outputs;
otherwise each side keeps its rows with a valid key absent from the other
side, projected by `_nice_subset`. -/
def pairMissing (A B : DF) : DF × DF :=
  if dfEmpty A || dfEmpty B then (emptyDF, emptyDF)
  else
    match resolveTxn A, resolveTxn B with
    | some ca, some cb =>
      if ca = [] ∨ cb = [] then (emptyDF, emptyDF)
      else
        (niceSubset { cols := A.cols, rows := aOnlyRows A ca B cb },
         niceSubset { cols := B.cols, rows := aOnlyRows B cb A ca })
    | _, _ => (emptyDF, emptyDF)

/-- Character removed by the subscriptions amount cleaning
(2_Subscription_Dashboard.py lines 126-131): `,` `$` `(` `)` and
whitespace (including the no-break space it also replaces). -/
def subsDropP (n : Nat) : Bool :=
  n == 44 || n == 36 || n == 40 || n == 41 || isWsP n

/-- Rendering `astype(str)` where missing cells are `pd.NA` (the
subscriptions standardiser replaced "" and "nan" by `pd.NA`). -/
def pdStrNA (c : Option Str) : Str := c.getD (litS "<NA>")

/-- The cleaned amount text of a subscriptions row. -/
def subsCleanAmount (c : Option Str) : Str :=
  (pdStrNA c).filter (fun n => !subsDropP n)

/-- Coercion `pd.to_numeric(..., errors="coerce")` on the cleaned amount. -/
def subsParsed (c : Option Str) : Option ℚ := parseDec (subsCleanAmount c)

/-- The `_prepare` amount filter (2_Subscription_Dashboard.py lines
197-199): keep a row only when its amount parses to a positive number. -/
def subsKeep (c : Option Str) : Bool :=
  match subsParsed c with
  | some q => decide (0 < q)
  | none => false

/-- Table `TYPE_CANON_DICT` of the subscriptions dashboard (lines 143-156). -/
def typeCanonDict : List (Str × Str) :=
  [(litS "tech", litS "Tech"), (litS "technology", litS "Tech"),
   (litS "it", litS "Tech"), (litS "software", litS "Tech"),
   (litS "saas", litS "Tech"), (litS "cloud", litS "Tech"),
   (litS "marketing", litS "Marketing"), (litS "mkt", litS "Marketing"),
   (litS "green", litS "Green"), (litS "sustainability", litS "Green"),
   (litS "other", litS "Others"), (litS "others", litS "Others")]

/-- Exact-match lookup in the canonical dictionary. -/
def dictLookup (s : Str) : Option Str :=
  (typeCanonDict.find? (fun p => p.1 == s)).map (fun p => p.2)

/-- Replace each maximal run of non-lowercase-letter characters by a single
space (the `re.sub(r"[^a-z]+", " ", s)` of `_canon_type`). -/
def collapseNA : Str → Str
  | [] => []
  | [c] => if isLowerP c then [c] else [32]
  | c :: d :: rest =>
    if isLowerP c then c :: collapseNA (d :: rest)
    else if isLowerP d then 32 :: collapseNA (d :: rest)
    else collapseNA (d :: rest)

/-- The cleaning of `_canon_type` (lines 159-161): strip, lowercase,
collapse non-letters to spaces, strip again. -/
def cleanType (v : Str) : Str := pyStrip (collapseNA (lowerS (pyStrip v)))

/-- Substring test (Python `in` on strings). -/
def containsSub (pat : Str) : Str → Bool
  | [] => pat.isEmpty
  | c :: rest => pat.isPrefixOf (c :: rest) || containsSub pat rest

/-- Branching of `_canon_type` on the already-cleaned text: dictionary,
then substring heuristics, else title-case; empty maps to "Others". -/
def canonGo (s : Str) : Str :=
  match dictLookup s with
  | some t => t
  | none =>
    if (litS "tech").isPrefixOf s || containsSub (litS "technolog") s then litS "Tech"
    else if containsSub (litS "market") s then litS "Marketing"
    else if containsSub (litS "green") s || containsSub (litS "sustain") s then litS "Green"
    else if containsSub (litS "other") s then litS "Others"
    else if s.isEmpty then litS "Others"
    else pyTitle s

/-- Canonicalizer `_canon_type` (2_Subscription_Dashboard.py lines 158-175): clean, try
the dictionary, then the substring heuristics, else title-case the cleaned
text; empty cleaned text maps to "Others". -/
def canonType (v : Str) : Str := canonGo (cleanType v)

/-- A concrete payout balance row of the end-to-end scenario. -/
def balRowC2 : BalRow :=
  { finType := some (litS "payout"),
    time := some { year := 2024, month := ⟨2, by omega⟩, day := 1 },
    desc := some (litS "payout to Mr James Brook"),
    txnId := some (litS "T1"),
    amount := some (litS "$1,200.00") }

/-- A payout balance row with a negative raw amount. -/
def balRowNeg : BalRow :=
  { finType := some (litS "PAYOUT"), time := none, desc := none,
    txnId := none, amount := some (litS "-50.00") }

/-- A concrete card-expense row. -/
def expRowEx : ExpRow :=
  { time := none, employees := some (litS "Ann, Bob"),
    txnId := some (litS "E1"), billing := some (litS "25.00"),
    category := some (litS "Travel"), status := some (litS "Approved") }

/-- A unified row with every field at a neutral value, used as the
default of `List.headD` in witnesses. -/
def rowDefault : Row :=
  { txnId := none, typ := [], employee := none, amount := 0,
    expCategory := [], expStatus := none, time := none, month := none,
    year := [], monthYear := none, date := none, user := [],
    category := none, debit := 0, credit := 0, finalAmount := 0 }

/-- An adjustment row carrying source counterparty and category values. -/
def rowAdjEx : Row :=
  { txnId := none, typ := litS " adjustment", employee := some (litS "Finance Team"),
    amount := 5, expCategory := litS "Ops", expStatus := none, time := none,
    month := none, year := [], monthYear := none, date := none,
    user := litS "Finance Team", category := some (litS "Ops"),
    debit := 5, credit := 0, finalAmount := 0 }

/-- A one-column table with mixed valid and invalid transaction ids. -/
def dfEx : DF :=
  { cols := [litS "Transaction Id"],
    rows := [[some (litS "x1")], [some (litS "  ")], [some (litS "NaN")], [none]] }

/-- A table with rows but no resolvable Transaction Id column. -/
def dfNoId : DF :=
  { cols := [litS "Amount"], rows := [[some (litS "5")]] }

/-- The debit/credit shape every normalized row has: one side carries the
cleaned amount, the other is zero. -/
def DCInv (m : Row) : Prop :=
  (m.debit = m.amount ∧ m.credit = 0) ∨ (m.credit = m.amount ∧ m.debit = 0)

/-- Tokens of a cleaned string: lowercase letters, or a space followed by
a lowercase letter, ending in a letter. -/
def cleanToks : Str → Bool
  | [] => true
  | [c] => isLowerP c
  | c :: d :: rest =>
    (isLowerP c || (c == 32 && isLowerP d)) && cleanToks (d :: rest)

/-- A cleaned string additionally starts with a letter when nonempty. -/
def isCleanS (s : Str) : Bool :=
  match s with
  | [] => true
  | c :: _ => isLowerP c && cleanToks s

/-- Shape `cleanToks` relaxed to allow a single trailing space. -/
def almostToks : Str → Bool
  | [] => true
  | [c] => isLowerP c || c == 32
  | c :: d :: rest =>
    (isLowerP c || (c == 32 && isLowerP d)) && almostToks (d :: rest)

example : parseDec (litS "-50.00") = some (-50) := by decide
example : cleanAmountFin (litS "$1,200.00") = 1200 := by decide
example : pyTitle (litS "mr james  brook") = litS "Mr James  Brook" := by decide
example : pyStrip (litS "  a b  ") = litS "a b" := by decide

example : extractTo (litS "payout to Mr James Brook") = some (litS "Mr James Brook") := by decide
example : extractTo (litS "Paid TO Bob") = none := by decide
example : extractTo (litS "go to ") = none := by decide
example : extractTo (litS "go to  ") = some [] := by decide
example : extractTo (litS "paid to ,John") = some (litS ",John") := by decide
example : extractTo (litS "payout to(x)") = none := by decide
example : extractTo (litS "a to b, c") = some (litS "b") := by decide
example : extractTo (litS "x to go to Y") = some (litS "go to Y") := by decide
example : extractTo (litS "into account to Jane") = some (litS "Jane") := by decide

example : extractToClaimCI (litS "Paid TO Bob") = some (litS "Bob") := by decide
example : extractToAmended (litS "Paid TO Bob") = none := by decide
example : extractToAmended (litS "payout to Mr James Brook") = some (litS "Mr James Brook") := by decide
example : extractToAmended (litS "go to ") = none := by decide
example : extractToAmended (litS "go to  ") = some [] := by decide
example : extractToAmended (litS "paid to ,John") = some (litS ",John") := by decide
example : extractToAmended (litS "x to go to Y") = some (litS "go to Y") := by decide

/-- Whitespace characters are not the letter `t`. -/
theorem isWsP_ne_t {n : Nat} (h : isWsP n = true) : n ≠ 116 := by
  simp only [isWsP, Bool.or_eq_true, beq_iff_eq] at h
  omega

/-- On newline-free text the lazy group captures the first character and
then everything up to the next stop character or the end. -/
theorem grpCode_eq (c : Nat) (rest : Str) (h : (10 : Nat) ∉ c :: rest) :
    grpCode (c :: rest) = some (c :: rest.takeWhile (fun n => !isStopP n)) := by
  induction rest generalizing c with
  | nil =>
    have hc : c ≠ 10 := fun e => h (by simp [e])
    show (if c = 10 then none else some [c]) = _
    rw [if_neg hc]
    rfl
  | cons d r ih =>
    have hc : c ≠ 10 := fun e => h (by simp [e])
    have h2 : (10 : Nat) ∉ d :: r := fun m => h (List.mem_cons_of_mem _ m)
    show (if c = 10 then none
        else if isStopP d then some [c]
        else (grpCode (d :: r)).map (fun g => c :: g)) = _
    rw [if_neg hc]
    by_cases hd : isStopP d
    · rw [if_pos hd, List.takeWhile_cons]
      simp [hd]
    · rw [if_neg hd, ih d h2, List.takeWhile_cons]
      simp [hd]

/-- When the whitespace-headed tail yields no capture under the amended
rule, the text was that single whitespace character. -/
theorem specTail_none {c : Nat} {rest : Str}
    (h : specTail (c :: rest) = none) : rest = [] := by
  unfold specTail at h
  split at h
  · exact absurd h (by simp)
  · split at h
    · exact absurd h (by simp)
    · rename_i hl
      cases rest with
      | nil => rfl
      | cons d r => exact absurd (by simp : 2 ≤ (c :: d :: r).length) hl

/-- On newline-free text whose head is whitespace, the backtracking
`\s+`-then-lazy-group matcher followed by the trim computes exactly the
amended rule's `specTail`. -/
theorem wsGrpAux_eq (c : Nat) (rest : Str) (h : (10 : Nat) ∉ c :: rest)
    (hw : isWsP c = true) :
    (wsGrpAux (c :: rest)).map pyStrip = specTail (c :: rest) := by
  induction rest generalizing c with
  | nil =>
    show ((if isWsP c then (match wsGrpAux [] with
        | some g => some g | none => grpCode []) else none).map pyStrip) = _
    rw [if_pos hw]
    show (none : Option Str).map pyStrip = specTail [c]
    unfold specTail
    rw [List.dropWhile_cons_of_pos hw]
    simp
  | cons d r ih =>
    have h2 : (10 : Nat) ∉ d :: r := fun m => h (List.mem_cons_of_mem _ m)
    show ((if isWsP c then (match wsGrpAux (d :: r) with
        | some g => some g | none => grpCode (d :: r)) else none).map pyStrip) = _
    rw [if_pos hw]
    by_cases hd : isWsP d
    · have ihd := ih d h2 hd
      cases hws : wsGrpAux (d :: r) with
      | some g =>
        rw [hws] at ihd
        show some (pyStrip g) = _
        simp only [Option.map_some'] at ihd
        rw [ihd]
        unfold specTail
        rw [List.dropWhile_cons_of_pos hw]
        cases hdw : (d :: r).dropWhile isWsP with
        | cons x xs => rfl
        | nil =>
          unfold specTail at ihd
          rw [hdw] at ihd
          have hlen : 2 ≤ (d :: r).length := by
            by_contra hcon
            rw [if_neg hcon] at ihd
            exact absurd ihd (by simp)
          rw [if_pos hlen, if_pos (by simp : 2 ≤ (c :: d :: r).length)]
      | none =>
        rw [hws] at ihd
        simp only [Option.map_none'] at ihd
        have hr : r = [] := specTail_none ihd.symm
        subst hr
        show (grpCode [d]).map pyStrip = _
        rw [grpCode_eq d [] h2]
        simp [pyStrip, hd, specTail, hw]
    · have hws : wsGrpAux (d :: r) = none := by
        show (if isWsP d then (match wsGrpAux r with
          | some g => some g | none => grpCode r) else none) = none
        rw [if_neg hd]
      rw [hws]
      rw [grpCode_eq d r h2]
      unfold specTail
      rw [List.dropWhile_cons_of_pos hw, List.dropWhile_cons_of_neg hd]
      rfl

/-- A fired whitespace trigger exposes the shape `o` + whitespace. -/
theorem toWsTrigger_shape {rest : Str} (h : toWsTrigger rest = true) :
    ∃ x r3, rest = 111 :: x :: r3 ∧ isWsP x = true := by
  unfold toWsTrigger at h
  split at h
  · rename_i x r3
    exact ⟨x, r3, rfl, h⟩
  · exact absurd h (by simp)

/-- Without the whitespace trigger the regex attempt at this position
fails. -/
theorem matchAtCode_none {rest : Str} (h : toWsTrigger rest = false) :
    matchAtCode rest = none := by
  unfold matchAtCode
  split
  · rename_i r2
    cases r2 with
    | nil => rfl
    | cons x r3 =>
      have hx : isWsP x = false := by
        unfold toWsTrigger at h
        exact h
      show (if isWsP x then (match wsGrpAux r3 with
        | some g => some g | none => grpCode r3) else none) = none
      rw [hx]
      rfl
  · rfl

/-- On newline-free text the regex engine's scan, followed by the trim,
computes exactly the amended characterization's scan. -/
theorem scanCode_eq (l : Str) : ∀ pw, (10 : Nat) ∉ l →
    (scanCode pw l).map pyStrip = scanSpecCS pw l := by
  induction l with
  | nil => intro pw h; rfl
  | cons c rest ih =>
    intro pw h
    have h2 : (10 : Nat) ∉ rest := fun m => h (List.mem_cons_of_mem _ m)
    show ((match (if c = 116 ∧ pw = false then matchAtCode rest else none) with
      | some g => some g
      | none => scanCode (isWordP c) rest).map pyStrip) = _
    by_cases hc : c = 116 ∧ pw = false
    · obtain ⟨hc1, hc2⟩ := hc
      subst hc1; subst hc2
      rw [if_pos ⟨rfl, rfl⟩]
      by_cases ht : toWsTrigger rest = true
      · obtain ⟨x, r3, hrest, hx⟩ := toWsTrigger_shape ht
        subst hrest
        have h3 : (10 : Nat) ∉ x :: r3 := fun m =>
          h2 (List.mem_cons_of_mem _ m)
        have hws := wsGrpAux_eq x r3 h3 hx
        have hrhs : scanSpecCS false (116 :: 111 :: x :: r3) = specTail (x :: r3) := by
          show (if (116 : Nat) = 116 ∧ (false : Bool) = false
              ∧ toWsTrigger (111 :: x :: r3) = true then
              specTail ((111 :: x :: r3).drop 1)
            else scanSpecCS (isWordP 116) (111 :: x :: r3)) = _
          rw [if_pos ⟨rfl, rfl, ht⟩]
          rfl
        rw [hrhs]
        show ((match wsGrpAux (x :: r3) with
          | some g => some g
          | none => scanCode (isWordP 116) (111 :: x :: r3)).map pyStrip) = _
        cases hwsv : wsGrpAux (x :: r3) with
        | some g =>
          rw [hwsv] at hws
          exact hws
        | none =>
          rw [hwsv] at hws
          simp only [Option.map_none'] at hws
          have hr3 : r3 = [] := specTail_none hws.symm
          subst hr3
          rw [← hws]
          simp [scanCode, matchAtCode, isWordP]
      · rw [matchAtCode_none (by simpa using ht)]
        have hrhs : scanSpecCS false (116 :: rest) = scanSpecCS (isWordP 116) rest := by
          show (if (116 : Nat) = 116 ∧ (false : Bool) = false
              ∧ toWsTrigger rest = true then specTail (rest.drop 1)
            else scanSpecCS (isWordP 116) rest) = _
          rw [if_neg (fun hcon => ht hcon.2.2)]
        rw [hrhs]
        exact ih (isWordP 116) h2
    · rw [if_neg hc]
      have hrhs : scanSpecCS pw (c :: rest) = scanSpecCS (isWordP c) rest := by
        show (if c = 116 ∧ pw = false ∧ toWsTrigger rest = true
            then specTail (rest.drop 1)
          else scanSpecCS (isWordP c) rest) = _
        rw [if_neg (fun hcon => hc ⟨hcon.1, hcon.2.1⟩)]
      rw [hrhs]
      exact ih (isWordP c) h2

example : natToStr 2024 = litS "2024" := by decide
example :
    (unifiedTable []
      [{ finType := some (litS "payout"), time := some ⟨2024, ⟨2, by omega⟩, 1⟩,
         desc := some (litS "payout to Mr James Brook"), txnId := some (litS "T1"),
         amount := some (litS "$1,200.00") }]).map
      (fun r => (r.typ, r.debit, r.credit, r.user, r.category))
    = [(litS "PAYOUT", 1200, 0, litS "Mr James Brook", some (litS "Transfers"))] := by
  decide

example : canonType (litS "SaaS ") = litS "Tech" := by decide
example : canonType (litS "") = litS "Others" := by decide
example : canonType (litS "random xyz") = litS "Random Xyz" := by decide
example : canonType (litS "12 34") = litS "Others" := by decide
example : subsParsed (some (litS "-50.00")) = some (-50) := by decide
example : subsKeep (some (litS "-50.00")) = false := by decide
example : subsParsed (some (litS "1,234.56")) = some (mkRat 123456 100) := by decide
example : subsKeep (some (litS "1,234.56")) = true := by decide

/-- C2 (corrected): on the balance row with type "payout", amount
"$1,200.00" and description "payout to Mr James Brook", the pipeline's
unified row does NOT carry counterparty "James Brook" — the extraction
keeps the honorific, so the claimed output tuple is wrong. -/
theorem c2_counterexample :
    (unifiedTable [] [balRowC2]).map
        (fun r => (r.typ, r.debit, r.credit, r.user, r.category))
      ≠ [(litS "PAYOUT", 1200, 0, litS "James Brook", some (litS "Transfers"))] := by
  decide

/-- C2 (amended): the balance row with type "payout", amount "$1,200.00",
description "payout to Mr James Brook" yields a unified row with Type
PAYOUT, Debit Net Amount 1200.00, Credit Net Amount 0, counterparty
"Mr James Brook" and Category "Transfers". -/
theorem c2_amended :
    (unifiedTable [] [balRowC2]).map
        (fun r => (r.typ, r.debit, r.credit, r.user, r.category))
      = [(litS "PAYOUT", 1200, 0, litS "Mr James Brook", some (litS "Transfers"))] := by
  decide

/-- C8: the subscriptions pipeline keeps a row exactly when its cleaned
amount parses to a positive number (sign preserved, unparseable dropped);
in particular "-50.00" parses to -50 and is dropped, while "1,234.56"
parses to 1234.56 and is kept. -/
theorem c8_subs_amount_filter :
    (∀ c : Option Str, subsKeep c = decide (0 < (subsParsed c).getD 0)) ∧
    subsParsed (some (litS "-50.00")) = some (-50) ∧
    subsKeep (some (litS "-50.00")) = false ∧
    subsParsed (some (litS "1,234.56")) = some (mkRat 123456 100) ∧
    subsKeep (some (litS "1,234.56")) = true := by
  refine ⟨fun c => ?_, by decide, by decide, by decide, by decide⟩
  unfold subsKeep
  cases subsParsed c with
  | none => simp
  | some q => simp

/-- C5: any unified row whose Type is ADJUSTMENT carries counterparty
"Adjustments" and Category "Air wallex Expense" after the re-derivation,
whatever the source row held. -/
theorem c5_adjustment_override : ∀ r : Row, (unify r).typ = litS "ADJUSTMENT" →
    (unify r).user = litS "Adjustments"
      ∧ (unify r).category = some (litS "Air wallex Expense") := by
  intro r h
  have ht : normType r.typ = litS "ADJUSTMENT" := h
  constructor
  · show (if upperS (normType r.typ) = litS "ADJUSTMENT" then litS "Adjustments"
      else userField r.employee) = litS "Adjustments"
    rw [ht]
    exact if_pos (by decide)
  · show applyIncomplete (normType r.typ)
      (cardCategory (normType r.typ) r.expCategory
        (if upperS (normType r.typ) = litS "ADJUSTMENT"
          then some (litS "Air wallex Expense") else some (pyStrip r.expCategory)))
      r.expStatus = some (litS "Air wallex Expense")
    rw [ht]
    rw [if_pos (by decide : upperS (litS "ADJUSTMENT") = litS "ADJUSTMENT")]
    unfold cardCategory
    rw [if_neg (by decide : ¬ litS "ADJUSTMENT" = litS "CARD")]
    unfold applyIncomplete
    rw [if_neg (fun hcon => absurd hcon.1 (by decide))]

/-- Witness for C5 at a concrete adjustment row. -/
theorem c5_witness :
    (unify rowAdjEx).user = litS "Adjustments"
      ∧ (unify rowAdjEx).category = some (litS "Air wallex Expense") :=
  c5_adjustment_override rowAdjEx (by decide)

/-- C4 (counterexample): on "Paid TO Bob" the specification's
case-insensitive rule extracts "Bob", but the code's regex is
case-sensitive and extracts nothing. -/
theorem c4_counterexample :
    extractToClaimCI (litS "Paid TO Bob") = some (litS "Bob")
      ∧ extractTo (litS "Paid TO Bob") = none := by
  exact ⟨by decide, by decide⟩

/-- C4 (amended): on every newline-free description the extraction equals
the case-sensitive characterization: the first lowercase "to" preceded by
a word boundary and followed by whitespace is located; the counterparty is
the first character after the whitespace run together with everything up
to the next `,` `;` `(` `)` or end of string, trimmed; when the string
ends inside the whitespace run the capture degenerates to the run's last
character (run length at least two, trimmed to empty) or to no match (run
length one); with no such occurrence the counterparty is absent. -/
theorem c4_amended : ∀ l : Str, (10 : Nat) ∉ l →
    extractTo l = extractToAmended l := by
  intro l h
  exact scanCode_eq l false h

/-- Witness for C4 on the concrete payout description. -/
theorem c4_witness :
    ((10 : Nat) ∉ litS "payout to Mr James Brook")
      ∧ extractTo (litS "payout to Mr James Brook")
          = extractToAmended (litS "payout to Mr James Brook") :=
  ⟨by decide, c4_amended (litS "payout to Mr James Brook") (by decide)⟩

/-- C7: the missing-transaction checker returns two empty tables when one
input is empty or a Transaction Id column does not resolve; and every row
selected for either output has a valid normalized key (neither empty nor
the literal "nan"), the outputs being exactly the friendly projections of
those selections. -/
theorem c7_pair_missing : ∀ A B : DF,
    ((dfEmpty A = true ∨ dfEmpty B = true
        ∨ resolveTxn A = none ∨ resolveTxn B = none) →
      (pairMissing A B).1.rows = [] ∧ (pairMissing A B).2.rows = []) ∧
    (∀ ca cb, resolveTxn A = some ca → resolveTxn B = some cb →
      (∀ row ∈ aOnlyRows A ca B cb,
        validKey (normId (cellAt A ca row)) = true) ∧
      (∀ row ∈ aOnlyRows B cb A ca,
        validKey (normId (cellAt B cb row)) = true) ∧
      (dfEmpty A = false → dfEmpty B = false → ca ≠ [] → cb ≠ [] →
        pairMissing A B =
          (niceSubset { cols := A.cols, rows := aOnlyRows A ca B cb },
           niceSubset { cols := B.cols, rows := aOnlyRows B cb A ca }))) := by
  intro A B
  constructor
  · intro hdeg
    unfold pairMissing
    by_cases he : (dfEmpty A || dfEmpty B) = true
    · rw [if_pos he]
      exact ⟨rfl, rfl⟩
    · rw [if_neg he]
      have hAB : dfEmpty A = false ∧ dfEmpty B = false := by
        constructor <;> (revert he; cases dfEmpty A <;> cases dfEmpty B <;> simp)
      rcases hdeg with h | h | h | h
      · rw [hAB.1] at h; exact absurd h (by simp)
      · rw [hAB.2] at h; exact absurd h (by simp)
      · rw [h]
        cases resolveTxn B <;> exact ⟨rfl, rfl⟩
      · rw [h]
        cases resolveTxn A <;> exact ⟨rfl, rfl⟩
  · intro ca cb hca hcb
    refine ⟨?_, ?_, ?_⟩
    · intro row hrow
      have hmem := List.mem_filter.mp hrow
      have h2 := hmem.2
      simp only [Bool.and_eq_true] at h2
      exact h2.1
    · intro row hrow
      have hmem := List.mem_filter.mp hrow
      have h2 := hmem.2
      simp only [Bool.and_eq_true] at h2
      exact h2.1
    · intro hA hB hcane hcbne
      unfold pairMissing
      rw [if_neg (by rw [hA, hB]; simp), hca, hcb]
      show (if ca = [] ∨ cb = [] then (emptyDF, emptyDF)
        else (niceSubset { cols := A.cols, rows := aOnlyRows A ca B cb },
              niceSubset { cols := B.cols, rows := aOnlyRows B cb A ca })) = _
      rw [if_neg (fun hcon => hcon.elim (fun h => hcane h) (fun h => hcbne h))]

/-- Witness for C7: an unresolvable id column on one side empties both
outputs. -/
theorem c7_witness :
    (pairMissing dfEx dfNoId).1.rows = [] ∧ (pairMissing dfEx dfNoId).2.rows = [] :=
  (c7_pair_missing dfEx dfNoId).1 (by decide)

/-- C6: the Incomplete rule gives Category "Incomplete" exactly to CARD
rows whose category is absent and whose trimmed expense status equals
"incomplete" case-insensitively; every other row keeps its category
unchanged by this rule, and the unifier's category column is this rule
applied to the CARD-sourced category. -/
theorem c6_incomplete_rule :
    (∀ (t : Str) (c : Option Str) (st : Option Str),
      ((t = litS "CARD" ∧ c = none
          ∧ lowerS (pyStrip (pdStr st)) = litS "incomplete") →
        applyIncomplete t c st = some (litS "Incomplete")) ∧
      (¬(t = litS "CARD" ∧ c = none
          ∧ lowerS (pyStrip (pdStr st)) = litS "incomplete") →
        applyIncomplete t c st = c)) ∧
    (∀ r : Row, (unify r).category =
      applyIncomplete (normType r.typ)
        (cardCategory (normType r.typ) r.expCategory
          (if upperS (normType r.typ) = litS "ADJUSTMENT"
            then some (litS "Air wallex Expense")
            else some (pyStrip r.expCategory)))
        r.expStatus) :=
  ⟨fun _t _c _st => ⟨fun h => if_pos h, fun h => if_neg h⟩, fun _ => rfl⟩

/-- Witness for C6: a CARD row with empty category and status
" Incomplete " receives Category "Incomplete", and a DEPOSIT row keeps its
category. -/
theorem c6_witness :
    applyIncomplete (litS "CARD") none (some (litS " Incomplete "))
        = some (litS "Incomplete")
      ∧ applyIncomplete (litS "DEPOSIT") none (some (litS "Incomplete")) = none :=
  ⟨((c6_incomplete_rule.1 (litS "CARD") none (some (litS " Incomplete "))).1 (by decide)),
   ((c6_incomplete_rule.1 (litS "DEPOSIT") none (some (litS "Incomplete"))).2 (by decide))⟩

/-- Every row the balance normalizer emits satisfies the debit/credit
shape, by its type-membership assignments. -/
theorem mkBalance_inv (b : BalRow) (m : Row) (hm : mkBalance b = some m) :
    DCInv m := by
  unfold mkBalance at hm
  split at hm
  · rename_i htyp
    rw [Option.some.injEq] at hm
    subst hm
    have h4 : balanceType b = litS "DEPOSIT" ∨ balanceType b = litS "CARD_REFUND"
        ∨ balanceType b = litS "PAYOUT" ∨ balanceType b = litS "ADJUSTMENT" := by
      simpa [balTypes] using htyp
    unfold DCInv
    rcases h4 with h | h | h | h
    · refine Or.inr ⟨?_, ?_⟩
      · show (if balanceType b ∈ [litS "DEPOSIT", litS "CARD_REFUND"]
            then cleanAmountFin (pdStr b.amount) else 0)
          = cleanAmountFin (pdStr b.amount)
        rw [h, if_pos (by decide)]
      · show (if balanceType b ∈ [litS "PAYOUT", litS "ADJUSTMENT"]
            then cleanAmountFin (pdStr b.amount) else 0) = 0
        rw [h, if_neg (by decide)]
    · refine Or.inr ⟨?_, ?_⟩
      · show (if balanceType b ∈ [litS "DEPOSIT", litS "CARD_REFUND"]
            then cleanAmountFin (pdStr b.amount) else 0)
          = cleanAmountFin (pdStr b.amount)
        rw [h, if_pos (by decide)]
      · show (if balanceType b ∈ [litS "PAYOUT", litS "ADJUSTMENT"]
            then cleanAmountFin (pdStr b.amount) else 0) = 0
        rw [h, if_neg (by decide)]
    · refine Or.inl ⟨?_, ?_⟩
      · show (if balanceType b ∈ [litS "PAYOUT", litS "ADJUSTMENT"]
            then cleanAmountFin (pdStr b.amount) else 0)
          = cleanAmountFin (pdStr b.amount)
        rw [h, if_pos (by decide)]
      · show (if balanceType b ∈ [litS "DEPOSIT", litS "CARD_REFUND"]
            then cleanAmountFin (pdStr b.amount) else 0) = 0
        rw [h, if_neg (by decide)]
    · refine Or.inl ⟨?_, ?_⟩
      · show (if balanceType b ∈ [litS "PAYOUT", litS "ADJUSTMENT"]
            then cleanAmountFin (pdStr b.amount) else 0)
          = cleanAmountFin (pdStr b.amount)
        rw [h, if_pos (by decide)]
      · show (if balanceType b ∈ [litS "DEPOSIT", litS "CARD_REFUND"]
            then cleanAmountFin (pdStr b.amount) else 0) = 0
        rw [h, if_neg (by decide)]
  · exact absurd hm (by simp)

/-- The re-derivation (fallback included) preserves the debit/credit shape
and the amount. -/
theorem unify_DCInv (m : Row) (h : DCInv m) :
    DCInv (unify m) ∧ (unify m).amount = m.amount := by
  refine ⟨?_, rfl⟩
  unfold DCInv at h ⊢
  rcases h with ⟨hd, hc⟩ | ⟨hc, hd⟩
  · refine Or.inl ⟨?_, ?_⟩
    · show (if (m.debit = 0 ∧ m.credit = 0) ∧ upperS (normType m.typ) ∈ debitTypes
          then m.amount else m.debit) = m.amount
      rw [hd]
      exact ite_self _
    · show (if (m.debit = 0 ∧ m.credit = 0) ∧ upperS (normType m.typ) ∈ creditTypes
          then m.amount else m.credit) = 0
      rw [hc]
      by_cases hz : (m.debit = 0 ∧ (0 : ℚ) = 0) ∧ upperS (normType m.typ) ∈ creditTypes
      · rw [if_pos hz, ← hd]
        exact hz.1.1
      · rw [if_neg hz]
  · refine Or.inr ⟨?_, ?_⟩
    · show (if (m.debit = 0 ∧ m.credit = 0) ∧ upperS (normType m.typ) ∈ creditTypes
          then m.amount else m.credit) = m.amount
      rw [hc]
      exact ite_self _
    · show (if (m.debit = 0 ∧ m.credit = 0) ∧ upperS (normType m.typ) ∈ debitTypes
          then m.amount else m.debit) = 0
      rw [hd]
      by_cases hz : ((0 : ℚ) = 0 ∧ m.credit = 0) ∧ upperS (normType m.typ) ∈ debitTypes
      · rw [if_pos hz, ← hc]
        exact hz.1.2
      · rw [if_neg hz]

/-- Every row of the unified table is the re-derivation of a normalized
row satisfying the debit/credit shape. -/
theorem unifiedTable_carrier {es : List ExpRow} {bs : List BalRow} {r : Row}
    (hr : r ∈ unifiedTable es bs) : ∃ m, DCInv m ∧ r = unify m := by
  unfold unifiedTable at hr
  rw [List.mem_map] at hr
  obtain ⟨m, hm, hmr⟩ := hr
  refine ⟨m, ?_, hmr.symm⟩
  rw [List.mem_append] at hm
  rcases hm with hm | hm
  · rw [List.mem_map] at hm
    obtain ⟨e, _, he⟩ := hm
    subst he
    exact Or.inl ⟨rfl, rfl⟩
  · rw [List.mem_filterMap] at hm
    obtain ⟨b, _, hb⟩ := hm
    exact mkBalance_inv b m hb

/-- C1 (counterexample): a PAYOUT balance row whose raw amount is
"-50.00" produces a unified row with Amount -50, Debit Net Amount -50 and
Credit Net Amount 0 — neither exactly one positive side nor the
both-zero-at-zero-amount exception holds, so the claimed trichotomy
fails. -/
theorem c1_counterexample :
    ¬ ∀ r ∈ unifiedTable [] [balRowNeg],
      ((0 < r.debit ∧ ¬ 0 < r.credit) ∨ (¬ 0 < r.debit ∧ 0 < r.credit))
        ∨ (r.amount = 0 ∧ r.debit = 0 ∧ r.credit = 0) := by
  decide

/-- C1 (amended): in every unified row, debit and credit are never both
positive; when Amount is positive exactly one of them is positive (the
other zero); and when Amount is zero both are zero.  (A negative Amount —
possible because numeric cleaning keeps the sign — leaves both sides
non-positive.) -/
theorem c1_amended : ∀ (es : List ExpRow) (bs : List BalRow) (r : Row),
    r ∈ unifiedTable es bs →
    (¬(0 < r.debit ∧ 0 < r.credit)) ∧
    (0 < r.amount →
      ((0 < r.debit ∧ r.credit = 0) ∨ (0 < r.credit ∧ r.debit = 0))) ∧
    (r.amount = 0 → r.debit = 0 ∧ r.credit = 0) := by
  intro es bs r hr
  obtain ⟨m, hinv, rfl⟩ := unifiedTable_carrier hr
  obtain ⟨hinv2, hamt⟩ := unify_DCInv m hinv
  rcases hinv2 with ⟨hd, hc⟩ | ⟨hc, hd⟩
  · refine ⟨?_, ?_, ?_⟩
    · intro hcon
      rw [hc] at hcon
      exact lt_irrefl 0 hcon.2
    · intro hpos
      left
      rw [hd]
      exact ⟨hpos, hc⟩
    · intro h0
      rw [hd, hc]
      exact ⟨h0, rfl⟩
  · refine ⟨?_, ?_, ?_⟩
    · intro hcon
      rw [hd] at hcon
      exact lt_irrefl 0 hcon.1
    · intro hpos
      right
      rw [hc]
      exact ⟨hpos, hd⟩
    · intro h0
      rw [hd, hc]
      exact ⟨rfl, h0⟩

/-- Witness for C1 on a concrete expense row. -/
theorem c1_witness :
    ((unifiedTable [expRowEx] []).headD rowDefault ∈ unifiedTable [expRowEx] []) ∧
    ((¬(0 < ((unifiedTable [expRowEx] []).headD rowDefault).debit
        ∧ 0 < ((unifiedTable [expRowEx] []).headD rowDefault).credit)) ∧
      (0 < ((unifiedTable [expRowEx] []).headD rowDefault).amount →
        ((0 < ((unifiedTable [expRowEx] []).headD rowDefault).debit
            ∧ ((unifiedTable [expRowEx] []).headD rowDefault).credit = 0)
          ∨ (0 < ((unifiedTable [expRowEx] []).headD rowDefault).credit
            ∧ ((unifiedTable [expRowEx] []).headD rowDefault).debit = 0))) ∧
      (((unifiedTable [expRowEx] []).headD rowDefault).amount = 0 →
        ((unifiedTable [expRowEx] []).headD rowDefault).debit = 0
          ∧ ((unifiedTable [expRowEx] []).headD rowDefault).credit = 0)) :=
  ⟨by decide, c1_amended [expRowEx] [] _ (by decide)⟩

/-- A successfully parsed unsigned numeral is non-negative. -/
theorem parseUnsigned_nonneg {l : Str} {q : ℚ}
    (h : parseUnsigned l = some q) : 0 ≤ q := by
  unfold parseUnsigned at h
  simp only [] at h
  split at h
  · split at h
    · rw [Option.some.injEq] at h
      subst h
      exact_mod_cast Nat.zero_le _
    · exact absurd h (by simp)
  · split at h
    · exact absurd h (by simp)
    · split at h
      · rw [Option.some.injEq] at h
        subst h
        rw [Rat.mkRat_eq_div]
        positivity
      · exact absurd h (by simp)

/-- When the raw text contains no minus sign, the cleaned amount is
non-negative. -/
theorem cleanAmountFin_nonneg {raw : Str} (h : (45 : Nat) ∉ raw) :
    0 ≤ cleanAmountFin raw := by
  unfold cleanAmountFin
  have h2 : (45 : Nat) ∉ raw.filter isNumKeepP :=
    fun hm => h (List.mem_of_mem_filter hm)
  have h3 : parseDec (raw.filter isNumKeepP)
      = parseUnsigned (raw.filter isNumKeepP) := by
    unfold parseDec
    split
    · rename_i rest heq
      exfalso
      apply h2
      rw [heq]
      exact List.mem_cons_self 45 rest
    · rfl
  rw [h3]
  cases hp : parseUnsigned (raw.filter isNumKeepP) with
  | none => simp
  | some q => simpa using parseUnsigned_nonneg hp

/-- C3 (counterexample): the numeric cleaning keeps the sign, so the
balance row with raw amount "-50.00" yields a unified row whose Amount is
-50, refuting non-negativity of the cleaned Amount. -/
theorem c3_counterexample :
    ¬ ∀ r ∈ unifiedTable [] [balRowNeg], 0 ≤ r.amount := by
  decide

/-- C3 (amended): whenever no raw amount cell contains a minus sign, every
unified row's Amount is non-negative (the cleaning step retains the minus
sign, so a negative raw amount stays negative). -/
theorem c3_amended : ∀ (es : List ExpRow) (bs : List BalRow),
    (∀ e ∈ es, (45 : Nat) ∉ pdStr e.billing) →
    (∀ b ∈ bs, (45 : Nat) ∉ pdStr b.amount) →
    ∀ r ∈ unifiedTable es bs, 0 ≤ r.amount := by
  intro es bs hes hbs r hr
  unfold unifiedTable at hr
  rw [List.mem_map] at hr
  obtain ⟨m, hm, hmr⟩ := hr
  subst hmr
  show 0 ≤ m.amount
  rw [List.mem_append] at hm
  rcases hm with hm | hm
  · rw [List.mem_map] at hm
    obtain ⟨e, he, rfl⟩ := hm
    exact cleanAmountFin_nonneg (hes e he)
  · rw [List.mem_filterMap] at hm
    obtain ⟨b, hb, hmb⟩ := hm
    have hma : m = balanceRow b := by
      unfold mkBalance at hmb
      split at hmb
      · exact (Option.some.injEq _ _ ▸ hmb).symm
      · exact absurd hmb (by simp)
    subst hma
    exact cleanAmountFin_nonneg (hbs b hb)

/-- Witness for C3 on a concrete minus-free input pair. -/
theorem c3_witness :
    (unifiedTable [] [balRowC2]).all (fun r => decide (0 ≤ r.amount)) = true := by
  have h := c3_amended [] [balRowC2] (by decide) (by decide)
  rw [List.all_eq_true]
  intro r hr
  exact decide_eq_true (h r hr)

/-- On rows in the debit/credit shape the fallback writes back the same
values, so the re-derivation fixes debit and credit. -/
theorem unify_debit_credit_fix (m : Row) (h : DCInv m) :
    (unify m).debit = m.debit ∧ (unify m).credit = m.credit := by
  unfold DCInv at h
  rcases h with ⟨hd, hc⟩ | ⟨hc, hd⟩
  · constructor
    · show (if (m.debit = 0 ∧ m.credit = 0) ∧ upperS (normType m.typ) ∈ debitTypes
          then m.amount else m.debit) = m.debit
      rw [hd]
      exact ite_self _
    · show (if (m.debit = 0 ∧ m.credit = 0) ∧ upperS (normType m.typ) ∈ creditTypes
          then m.amount else m.credit) = m.credit
      by_cases hz : (m.debit = 0 ∧ m.credit = 0) ∧ upperS (normType m.typ) ∈ creditTypes
      · rw [if_pos hz, hc, ← hd, hz.1.1]
      · rw [if_neg hz]
  · constructor
    · show (if (m.debit = 0 ∧ m.credit = 0) ∧ upperS (normType m.typ) ∈ debitTypes
          then m.amount else m.debit) = m.debit
      by_cases hz : (m.debit = 0 ∧ m.credit = 0) ∧ upperS (normType m.typ) ∈ debitTypes
      · rw [if_pos hz, hd, ← hc, hz.1.2]
      · rw [if_neg hz]
    · show (if (m.debit = 0 ∧ m.credit = 0) ∧ upperS (normType m.typ) ∈ creditTypes
          then m.amount else m.credit) = m.credit
      rw [hc]
      exact ite_self _

/-- When the re-derivation fixes debit and credit and the type
normalization is idempotent on the row's type, the re-derivation is a
projection on that row. -/
theorem unify_idem_aux (m : Row) (hd : (unify m).debit = m.debit)
    (hc : (unify m).credit = m.credit)
    (ht : normType (normType m.typ) = normType m.typ) :
    unify (unify m) = unify m := by
  have hty : (unify m).typ = normType m.typ := rfl
  apply Row.ext
  · rfl
  · exact ht
  · rfl
  · rfl
  · rfl
  · rfl
  · rfl
  · rfl
  · rfl
  · rfl
  · rfl
  · show (if upperS (normType ((unify m).typ)) = litS "ADJUSTMENT"
        then litS "Adjustments" else userField ((unify m).employee))
      = (unify m).user
    rw [hty, ht]
    rfl
  · show applyIncomplete (normType ((unify m).typ))
        (cardCategory (normType ((unify m).typ)) ((unify m).expCategory)
          (if upperS (normType ((unify m).typ)) = litS "ADJUSTMENT"
            then some (litS "Air wallex Expense")
            else some (pyStrip ((unify m).expCategory))))
        ((unify m).expStatus)
      = (unify m).category
    rw [hty, ht]
    rfl
  · show (if (((unify m).debit = 0 ∧ (unify m).credit = 0)
          ∧ upperS (normType ((unify m).typ)) ∈ debitTypes)
        then (unify m).amount else (unify m).debit) = (unify m).debit
    rw [hty, ht, hd, hc]
    exact hd
  · show (if (((unify m).debit = 0 ∧ (unify m).credit = 0)
          ∧ upperS (normType ((unify m).typ)) ∈ creditTypes)
        then (unify m).amount else (unify m).credit) = (unify m).credit
    rw [hty, ht, hd, hc]
    exact hc
  · show (unify m).debit = (unify m).finalAmount
    exact hd

/-- C9: the unifier's re-derivation step is idempotent on the pipeline's
output: mapping it over the unified table reproduces the table
identically (a fixed point, row order preserved). -/
theorem c9_unifier_idempotent : ∀ (es : List ExpRow) (bs : List BalRow),
    (unifiedTable es bs).map unify = unifiedTable es bs := by
  intro es bs
  unfold unifiedTable
  rw [List.map_map]
  apply List.map_congr_left
  intro m hm
  show unify (unify m) = unify m
  have hkey : DCInv m ∧ normType (normType m.typ) = normType m.typ := by
    rw [List.mem_append] at hm
    rcases hm with hm | hm
    · rw [List.mem_map] at hm
      obtain ⟨e, _, rfl⟩ := hm
      refine ⟨Or.inl ⟨rfl, rfl⟩, ?_⟩
      show normType (normType (litS "CARD")) = normType (litS "CARD")
      decide
    · rw [List.mem_filterMap] at hm
      obtain ⟨b, _, hb⟩ := hm
      have hDC := mkBalance_inv b m hb
      have hshape : balanceType b ∈ balTypes ∧ m = balanceRow b := by
        unfold mkBalance at hb
        split at hb
        · rename_i hmem
          rw [Option.some.injEq] at hb
          exact ⟨hmem, hb.symm⟩
        · exact absurd hb (by simp)
      obtain ⟨hmem, hmb⟩ := hshape
      subst hmb
      refine ⟨hDC, ?_⟩
      have h4 : balanceType b = litS "DEPOSIT" ∨ balanceType b = litS "CARD_REFUND"
          ∨ balanceType b = litS "PAYOUT" ∨ balanceType b = litS "ADJUSTMENT" := by
        simpa [balTypes] using hmem
      show normType (normType (balanceType b)) = normType (balanceType b)
      rcases h4 with h | h | h | h <;> rw [h] <;> decide
  have hfix := unify_debit_credit_fix m hkey.1
  exact unify_idem_aux m hfix.1 hfix.2 hkey.2

/-- Numeric reading of the uppercase test. -/
theorem isUpperP_iff {n : Nat} : isUpperP n = true ↔ 65 ≤ n ∧ n ≤ 90 := by
  simp [isUpperP]

/-- Numeric reading of the lowercase test. -/
theorem isLowerP_iff {n : Nat} : isLowerP n = true ↔ 97 ≤ n ∧ n ≤ 122 := by
  simp [isLowerP]

/-- Numeric reading of the whitespace test. -/
theorem isWsP_iff {n : Nat} : isWsP n = true ↔
    n = 9 ∨ n = 10 ∨ n = 11 ∨ n = 12 ∨ n = 13 ∨ n = 32 ∨ n = 160 := by
  simp [isWsP, or_assoc]

/-- Lowercasing is idempotent. -/
theorem lowerC_lowerC (n : Nat) : lowerC (lowerC n) = lowerC n := by
  by_cases hu : isUpperP n = true
  · have h1 := isUpperP_iff.mp hu
    have e1 : lowerC n = n + 32 := by unfold lowerC; rw [if_pos hu]
    rw [e1]
    unfold lowerC
    rw [if_neg (fun hcon => by have := isUpperP_iff.mp hcon; omega)]
  · have e1 : lowerC n = n := by unfold lowerC; rw [if_neg hu]
    rw [e1]
    exact e1

/-- Lowercasing undoes uppercasing, down to the lowercase image. -/
theorem lowerC_upperC (n : Nat) : lowerC (upperC n) = lowerC n := by
  by_cases hl : isLowerP n = true
  · have h1 := isLowerP_iff.mp hl
    have e1 : upperC n = n - 32 := by unfold upperC; rw [if_pos hl]
    have e2 : lowerC (n - 32) = n := by
      unfold lowerC
      rw [if_pos (isUpperP_iff.mpr (by omega))]
      omega
    have e3 : lowerC n = n := by
      unfold lowerC
      rw [if_neg (fun hcon => by have := isUpperP_iff.mp hcon; omega)]
    rw [e1, e2, e3]
  · have e1 : upperC n = n := by unfold upperC; rw [if_neg hl]
    rw [e1]

/-- Lowercasing wipes out whatever case the title step chose. -/
theorem lowerC_titleC (b : Bool) (n : Nat) : lowerC (titleC b n) = lowerC n := by
  unfold titleC
  by_cases ha : isAlphaP n = true
  · rw [if_pos ha]
    cases b
    · show lowerC (upperC n) = lowerC n
      exact lowerC_upperC n
    · show lowerC (lowerC n) = lowerC n
      exact lowerC_lowerC n
  · rw [if_neg ha]

/-- Lowercasing does not change whether a character is whitespace. -/
theorem isWsP_lowerC (n : Nat) : isWsP (lowerC n) = isWsP n := by
  unfold lowerC
  by_cases hu : isUpperP n = true
  · rw [if_pos hu]
    have h1 := isUpperP_iff.mp hu
    have e1 : isWsP (n + 32) = false := by
      rw [Bool.eq_false_iff]
      intro hcon
      have := isWsP_iff.mp hcon
      omega
    have e2 : isWsP n = false := by
      rw [Bool.eq_false_iff]
      intro hcon
      have := isWsP_iff.mp hcon
      omega
    rw [e1, e2]
  · rw [if_neg hu]

/-- Stripping commutes with mapping a whitespace-preserving character
function. -/
theorem pyStrip_map_comm (f : Nat → Nat) (hf : ∀ n, isWsP (f n) = isWsP n)
    (l : Str) : pyStrip (l.map f) = (pyStrip l).map f := by
  unfold pyStrip
  have hfe : (isWsP ∘ f) = isWsP := funext hf
  rw [List.dropWhile_map, hfe, ← List.map_reverse, List.dropWhile_map, hfe,
    ← List.map_reverse]

/-- The lowercase image of a title-cased string is the lowercase image of
the original. -/
theorem lowerS_titleAux (b : Bool) (l : Str) :
    lowerS (pyTitleAux b l) = lowerS l := by
  induction l generalizing b with
  | nil => rfl
  | cons c rest ih =>
    show lowerC (titleC b c) :: lowerS (pyTitleAux (isAlphaP c) rest)
      = lowerC c :: lowerS rest
    rw [lowerC_titleC, ih]

/-- Title-casing does not change the cleaned form of a string. -/
theorem cleanType_title (s : Str) : cleanType (pyTitle s) = cleanType s := by
  unfold cleanType
  have h : lowerS (pyStrip (pyTitle s)) = lowerS (pyStrip s) := by
    show (pyStrip (pyTitle s)).map lowerC = (pyStrip s).map lowerC
    rw [← pyStrip_map_comm lowerC isWsP_lowerC, ← pyStrip_map_comm lowerC isWsP_lowerC]
    show pyStrip (lowerS (pyTitleAux false s)) = pyStrip (lowerS s)
    rw [lowerS_titleAux]
  rw [h]

/-- Dropping the head preserves the relaxed token shape. -/
theorem almostToks_tail {c : Nat} {rest : Str}
    (h : almostToks (c :: rest) = true) : almostToks rest = true := by
  cases rest with
  | nil => rfl
  | cons d r =>
    have h2 := h
    unfold almostToks at h2
    simp only [Bool.and_eq_true] at h2
    exact h2.2

/-- The collapse of a lowercase-headed list starts with that letter. -/
theorem collapseNA_head {d : Nat} (hd : isLowerP d = true) (rest : Str) :
    (collapseNA (d :: rest)).head? = some d := by
  cases rest with
  | nil => simp [collapseNA, hd]
  | cons e r => simp [collapseNA, hd]

/-- Prepending a lowercase letter preserves the relaxed token shape. -/
theorem almostToks_cons_lower {c : Nat} (hc : isLowerP c = true) {w : Str}
    (hw : almostToks w = true) : almostToks (c :: w) = true := by
  cases w with
  | nil => simp [almostToks, hc]
  | cons d r =>
    unfold almostToks
    rw [Bool.and_eq_true]
    exact ⟨by simp [hc], hw⟩

/-- Prepending a space before a letter-headed list preserves the relaxed
token shape. -/
theorem almostToks_cons_space {d : Nat} {w : Str} (hh : w.head? = some d)
    (hd : isLowerP d = true) (hw : almostToks w = true) :
    almostToks (32 :: w) = true := by
  cases w with
  | nil => exact absurd hh (by simp)
  | cons e r =>
    rw [List.head?_cons, Option.some.injEq] at hh
    subst hh
    unfold almostToks
    rw [Bool.and_eq_true]
    exact ⟨by simp [hd], hw⟩

/-- The collapse step always produces the relaxed token shape. -/
theorem almostToks_collapseNA : ∀ z, almostToks (collapseNA z) = true := by
  intro z
  induction z with
  | nil => rfl
  | cons c rest ih =>
    cases rest with
    | nil =>
      by_cases hc : isLowerP c = true
      · simp [collapseNA, hc, almostToks]
      · simp [collapseNA, hc, almostToks]
    | cons d r =>
      rw [collapseNA]
      by_cases hc : isLowerP c = true
      · rw [if_pos hc]
        exact almostToks_cons_lower hc ih
      · rw [if_neg hc]
        by_cases hd : isLowerP d = true
        · rw [if_pos hd]
          exact almostToks_cons_space (collapseNA_head hd r) hd ih
        · rw [if_neg hd]
          exact ih

/-- Dropping a whitespace prefix preserves the relaxed token shape. -/
theorem almostToks_dropWhile {u : Str} (h : almostToks u = true) :
    almostToks (u.dropWhile isWsP) = true := by
  induction u with
  | nil => exact h
  | cons c rest ih =>
    by_cases hc : isWsP c = true
    · rw [List.dropWhile_cons_of_pos hc]
      exact ih (almostToks_tail h)
    · rw [List.dropWhile_cons_of_neg hc]
      exact h

/-- The head surviving a `dropWhile` fails the predicate. -/
theorem dropWhile_head_false {p : Nat → Bool} : ∀ (l : Str) {c : Nat} {t : Str},
    l.dropWhile p = c :: t → p c = false := by
  intro l
  induction l with
  | nil => intro c t h; exact absurd h (by simp)
  | cons a rest ih =>
    intro c t h
    by_cases ha : p a = true
    · rw [List.dropWhile_cons_of_pos ha] at h
      exact ih h
    · rw [List.dropWhile_cons_of_neg ha] at h
      rw [List.cons.injEq] at h
      rw [← h.1]
      exact Bool.eq_false_iff.mpr ha

/-- Letters are not whitespace. -/
theorem isWsP_false_of_lower {a : Nat} (h : isLowerP a = true) :
    isWsP a = false := by
  have h1 := isLowerP_iff.mp h
  rw [Bool.eq_false_iff]
  intro hcon
  have := isWsP_iff.mp hcon
  omega

/-- A relaxed-shape list that ends in a letter has the strict token
shape. -/
theorem cleanToks_of_almost_last {u : Str} (h : almostToks u = true)
    (hl : ∀ a, u.getLast? = some a → isLowerP a = true) :
    cleanToks u = true := by
  induction u with
  | nil => rfl
  | cons c rest ih =>
    cases rest with
    | nil =>
      show isLowerP c = true
      exact hl c rfl
    | cons d r =>
      unfold almostToks at h
      rw [Bool.and_eq_true] at h
      unfold cleanToks
      rw [Bool.and_eq_true]
      refine ⟨h.1, ih h.2 ?_⟩
      intro a ha
      apply hl
      rw [List.getLast?_cons_cons]
      exact ha

/-- The last element of a strict-token-shape list is a letter. -/
theorem cleanToks_last : ∀ {u : Str}, cleanToks u = true →
    ∀ a, u.getLast? = some a → isLowerP a = true := by
  intro u
  induction u with
  | nil => intro _ a ha; exact absurd ha (by simp)
  | cons c rest ih =>
    intro h a ha
    cases rest with
    | nil =>
      rw [List.getLast?_singleton, Option.some.injEq] at ha
      subst ha
      exact h
    | cons d r =>
      unfold cleanToks at h
      rw [Bool.and_eq_true] at h
      rw [List.getLast?_cons_cons] at ha
      exact ih h.2 a ha

/-- The last element of a relaxed-shape list is a letter or a space. -/
theorem almostToks_last : ∀ {u : Str}, almostToks u = true →
    ∀ a, u.getLast? = some a → isLowerP a = true ∨ a = 32 := by
  intro u
  induction u with
  | nil => intro _ a ha; exact absurd ha (by simp)
  | cons c rest ih =>
    intro h a ha
    cases rest with
    | nil =>
      rw [List.getLast?_singleton, Option.some.injEq] at ha
      subst ha
      simpa [almostToks] using h
    | cons d r =>
      unfold almostToks at h
      rw [Bool.and_eq_true] at h
      rw [List.getLast?_cons_cons] at ha
      exact ih h.2 a ha

/-- Dropping a trailing space from a relaxed-shape list leaves the strict
token shape. -/
theorem cleanToks_dropLast_of_last32 : ∀ {u : Str}, almostToks u = true →
    u.getLast? = some 32 → cleanToks u.dropLast = true := by
  intro u
  induction u with
  | nil => intro _ ha; exact absurd ha (by simp)
  | cons c rest ih =>
    intro h ha
    cases rest with
    | nil => rfl
    | cons d r =>
      rw [List.getLast?_cons_cons] at ha
      unfold almostToks at h
      rw [Bool.and_eq_true] at h
      have ih2 := ih h.2 ha
      cases r with
      | nil =>
        rw [List.getLast?_singleton, Option.some.injEq] at ha
        show cleanToks [c] = true
        rcases (by simpa using h.1 :
            isLowerP c = true ∨ (c = 32 ∧ isLowerP d = true)) with h3 | h3
        · exact h3
        · rw [ha] at h3
          exact absurd h3.2 (by decide)
      | cons e r2 =>
        show cleanToks (c :: (d :: e :: r2).dropLast) = true
        rw [List.dropLast_cons₂] at ih2 ⊢
        unfold cleanToks
        rw [Bool.and_eq_true]
        exact ⟨h.1, ih2⟩

/-- Dropping via `dropWhile` is the identity when the head fails the predicate. -/
theorem dropWhile_eq_self_of_head {p : Nat → Bool} : ∀ (l : Str),
    (∀ a, l.head? = some a → p a = false) → l.dropWhile p = l := by
  intro l h
  cases l with
  | nil => rfl
  | cons c t => exact List.dropWhile_cons_of_neg (by rw [h c rfl]; simp)

/-- Stripping is the identity on a list whose first and last characters
are not whitespace. -/
theorem pyStrip_eq_self {s : Str}
    (h1 : ∀ a, s.head? = some a → isWsP a = false)
    (h2 : ∀ a, s.getLast? = some a → isWsP a = false) :
    pyStrip s = s := by
  unfold pyStrip
  rw [dropWhile_eq_self_of_head s h1]
  rw [dropWhile_eq_self_of_head s.reverse
    (fun a ha => h2 a (by rwa [List.head?_reverse] at ha))]
  exact List.reverse_reverse s

/-- Removing the trailing whitespace run, on a list that ends with exactly
one space whose predecessor (when present) is not whitespace, drops just
that space. -/
theorem rstrip_last32 {u : Str} (hlast : u.getLast? = some 32)
    (hprev : ∀ b, u.dropLast.getLast? = some b → isWsP b = false) :
    (u.reverse.dropWhile isWsP).reverse = u.dropLast := by
  have hne : u ≠ [] := by
    intro h
    rw [h] at hlast
    exact absurd hlast (by simp)
  have hu : u.dropLast ++ [32] = u := by
    have := List.dropLast_append_getLast hne
    rwa [List.getLast_eq_iff_getLast?_eq_some hne |>.mpr hlast] at this
  have hrev : u.reverse = 32 :: u.dropLast.reverse := by
    rw [← hu, List.reverse_append]
    simp
  rw [hrev]
  rw [List.dropWhile_cons_of_pos (by decide)]
  rw [dropWhile_eq_self_of_head u.dropLast.reverse
    (fun a ha => hprev a (by rwa [List.head?_reverse] at ha))]
  exact List.reverse_reverse _

/-- Characters of a strict-token-shape list are letters or spaces. -/
theorem cleanToks_chars : ∀ {u : Str}, cleanToks u = true →
    ∀ c ∈ u, isLowerP c = true ∨ c = 32 := by
  intro u
  induction u with
  | nil => intro _ c hc; exact absurd hc (by simp)
  | cons a rest ih =>
    intro h c hc
    cases rest with
    | nil =>
      rcases List.mem_singleton.mp hc with rfl
      exact Or.inl h
    | cons d r =>
      unfold cleanToks at h
      rw [Bool.and_eq_true] at h
      rcases List.mem_cons.mp hc with rfl | hc2
      · rcases (by simpa using h.1 :
            isLowerP c = true ∨ (c = 32 ∧ isLowerP d = true)) with h3 | h3
        · exact Or.inl h3
        · exact Or.inr h3.1
      · exact ih h.2 c hc2

/-- Lowercasing fixes a strict-token-shape list. -/
theorem lowerS_eq_self {s : Str} (h : cleanToks s = true) : lowerS s = s := by
  show s.map lowerC = s
  conv_rhs => rw [← List.map_id s]
  apply List.map_congr_left
  intro a ha
  show lowerC a = a
  rcases cleanToks_chars h a ha with hl | hl
  · have h1 := isLowerP_iff.mp hl
    unfold lowerC
    rw [if_neg (fun hcon => by have := isUpperP_iff.mp hcon; omega)]
  · subst hl
    decide

/-- The collapse step fixes a strict-token-shape list. -/
theorem collapseNA_eq_self : ∀ {s : Str}, cleanToks s = true →
    collapseNA s = s := by
  intro s
  induction s with
  | nil => intro _; rfl
  | cons c rest ih =>
    intro h
    cases rest with
    | nil =>
      have hl : isLowerP c = true := h
      show collapseNA [c] = [c]
      rw [collapseNA, if_pos hl]
    | cons d r =>
      unfold cleanToks at h
      rw [Bool.and_eq_true] at h
      rw [collapseNA]
      rcases (by simpa using h.1 :
          isLowerP c = true ∨ (c = 32 ∧ isLowerP d = true)) with h3 | h3
      · rw [if_pos h3, ih h.2]
      · rw [if_neg (by rw [h3.1]; decide), if_pos h3.2, ih h.2, h3.1]

/-- Cleaning fixes every already-clean string. -/
theorem cleanType_fix {s : Str} (h : isCleanS s = true) : cleanType s = s := by
  cases s with
  | nil => rfl
  | cons c rest =>
    have h2 : isLowerP c = true ∧ cleanToks (c :: rest) = true := by
      unfold isCleanS at h
      rw [Bool.and_eq_true] at h
      exact h
    have hstrip : pyStrip (c :: rest) = c :: rest := by
      apply pyStrip_eq_self
      · intro a ha
        rw [List.head?_cons, Option.some.injEq] at ha
        subst ha
        exact isWsP_false_of_lower h2.1
      · intro a ha
        exact isWsP_false_of_lower (cleanToks_last h2.2 a ha)
    unfold cleanType
    rw [hstrip, lowerS_eq_self h2.2, collapseNA_eq_self h2.2, hstrip]

/-- The cleaning always produces a clean string. -/
theorem isCleanS_cleanType (x : Str) : isCleanS (cleanType x) = true := by
  have main : ∀ w : Str, almostToks w = true → isCleanS (pyStrip w) = true := by
    intro w hw
    unfold pyStrip
    have hu1 : almostToks (w.dropWhile isWsP) = true := almostToks_dropWhile hw
    cases hu : w.dropWhile isWsP with
    | nil => rfl
    | cons c t =>
      rw [hu] at hu1
      have hcws : isWsP c = false := dropWhile_head_false w hu
      have hcl : isLowerP c = true := by
        cases t with
        | nil =>
          rcases (by simpa [almostToks] using hu1 : isLowerP c = true ∨ c = 32)
            with h | h
          · exact h
          · rw [h] at hcws
            exact absurd hcws (by decide)
        | cons d r =>
          have h5 := hu1
          unfold almostToks at h5
          rw [Bool.and_eq_true] at h5
          rcases (by simpa using h5.1 :
              isLowerP c = true ∨ (c = 32 ∧ isLowerP d = true)) with h | h
          · exact h
          · rw [h.1] at hcws
            exact absurd hcws (by decide)
      cases hlast : (c :: t).getLast? with
      | none => exact absurd hlast (by simp)
      | some a =>
        rcases almostToks_last hu1 a hlast with hla | h32
        · have hv : ((c :: t).reverse.dropWhile isWsP).reverse = c :: t := by
            rw [dropWhile_eq_self_of_head (c :: t).reverse (fun b hb => by
              rw [List.head?_reverse, hlast, Option.some.injEq] at hb
              subst hb
              exact isWsP_false_of_lower hla)]
            exact List.reverse_reverse _
          rw [hv]
          show (isLowerP c && cleanToks (c :: t)) = true
          rw [hcl, cleanToks_of_almost_last hu1 (fun b hb => by
            rw [hlast, Option.some.injEq] at hb
            subst hb
            exact hla)]
          rfl
        · subst h32
          have hclean : cleanToks (c :: t).dropLast = true :=
            cleanToks_dropLast_of_last32 hu1 hlast
          have hv := rstrip_last32 hlast (fun b hb =>
            isWsP_false_of_lower (cleanToks_last hclean b hb))
          rw [hv]
          cases t with
          | nil =>
            rw [List.getLast?_singleton, Option.some.injEq] at hlast
            rw [hlast] at hcl
            exact absurd hcl (by decide)
          | cons d r =>
            rw [List.dropLast_cons₂] at hclean ⊢
            show (isLowerP c && cleanToks (c :: (d :: r).dropLast)) = true
            rw [hcl, hclean]
            rfl
  unfold cleanType
  exact main _ (almostToks_collapseNA _)

/-- Cleaning is idempotent. -/
theorem cleanType_idem (x : Str) : cleanType (cleanType x) = cleanType x :=
  cleanType_fix (isCleanS_cleanType x)

/-- Every dictionary value is one of the four canonical labels. -/
theorem dictLookup_values {s t : Str} (h : dictLookup s = some t) :
    t = litS "Tech" ∨ t = litS "Marketing" ∨ t = litS "Green"
      ∨ t = litS "Others" := by
  unfold dictLookup at h
  cases hf : typeCanonDict.find? (fun p => p.1 == s) with
  | none => rw [hf] at h; exact absurd h (by simp)
  | some p =>
    rw [hf, Option.map_some', Option.some.injEq] at h
    subst h
    have hp := List.mem_of_find?_eq_some hf
    have hall : ∀ q ∈ typeCanonDict,
        q.2 = litS "Tech" ∨ q.2 = litS "Marketing" ∨ q.2 = litS "Green"
          ∨ q.2 = litS "Others" := by decide
    exact hall p hp

/-- The branch stage returns a fixed label, or title-cases a nonempty
input. -/
theorem canonGo_cases (s : Str) :
    canonGo s = litS "Tech" ∨ canonGo s = litS "Marketing"
      ∨ canonGo s = litS "Green" ∨ canonGo s = litS "Others"
      ∨ (canonGo s = pyTitle s ∧ s ≠ []) := by
  unfold canonGo
  cases hd : dictLookup s with
  | some t =>
    rcases dictLookup_values hd with h | h | h | h
    · exact Or.inl h
    · exact Or.inr (Or.inl h)
    · exact Or.inr (Or.inr (Or.inl h))
    · exact Or.inr (Or.inr (Or.inr (Or.inl h)))
  | none =>
    by_cases h1 : ((litS "tech").isPrefixOf s || containsSub (litS "technolog") s) = true
    · rw [if_pos h1]
      exact Or.inl rfl
    · rw [if_neg h1]
      by_cases h2 : containsSub (litS "market") s = true
      · rw [if_pos h2]
        exact Or.inr (Or.inl rfl)
      · rw [if_neg h2]
        by_cases h3 : (containsSub (litS "green") s || containsSub (litS "sustain") s) = true
        · rw [if_pos h3]
          exact Or.inr (Or.inr (Or.inl rfl))
        · rw [if_neg h3]
          by_cases h4 : containsSub (litS "other") s = true
          · rw [if_pos h4]
            exact Or.inr (Or.inr (Or.inr (Or.inl rfl)))
          · rw [if_neg h4]
            by_cases h5 : s.isEmpty = true
            · rw [if_pos h5]
              exact Or.inr (Or.inr (Or.inr (Or.inl rfl)))
            · rw [if_neg h5]
              exact Or.inr (Or.inr (Or.inr (Or.inr ⟨rfl, by simpa using h5⟩)))

/-- C10: the category canonicalizer is idempotent, never returns the empty
string, and maps inputs whose cleaned text is empty to "Others". -/
theorem c10_canon_idempotent : ∀ v : Str,
    canonType (canonType v) = canonType v
      ∧ canonType v ≠ []
      ∧ (cleanType v = [] → canonType v = litS "Others") := by
  intro v
  have hclean : cleanType (cleanType v) = cleanType v := cleanType_idem v
  have hv : canonType v = canonGo (cleanType v) := rfl
  refine ⟨?_, ?_, ?_⟩
  · rcases canonGo_cases (cleanType v) with h | h | h | h | ⟨h, hne⟩
    · rw [hv, h]; decide
    · rw [hv, h]; decide
    · rw [hv, h]; decide
    · rw [hv, h]; decide
    · rw [hv, h]
      calc canonType (pyTitle (cleanType v))
          = canonGo (cleanType (pyTitle (cleanType v))) := rfl
        _ = canonGo (cleanType (cleanType v)) := by rw [cleanType_title]
        _ = canonGo (cleanType v) := by rw [hclean]
        _ = pyTitle (cleanType v) := h
  · rcases canonGo_cases (cleanType v) with h | h | h | h | ⟨h, hne⟩
    · rw [hv, h]; decide
    · rw [hv, h]; decide
    · rw [hv, h]; decide
    · rw [hv, h]; decide
    · rw [hv, h]
      cases hs : cleanType v with
      | nil => exact absurd hs hne
      | cons c t => simp [pyTitle, pyTitleAux]
  · intro h0
    rw [hv, h0]
    decide

/-- Witness for C10 on an input whose cleaned text is empty. -/
theorem c10_witness :
    canonType (canonType (litS " 12 ")) = canonType (litS " 12 ")
      ∧ canonType (litS " 12 ") ≠ []
      ∧ canonType (litS " 12 ") = litS "Others" :=
  ⟨(c10_canon_idempotent (litS " 12 ")).1,
   (c10_canon_idempotent (litS " 12 ")).2.1,
   (c10_canon_idempotent (litS " 12 ")).2.2 (by decide)⟩

